import Mathlib

/-! Verification development for `music_assistant/server/controllers/streams.py`.

Bytes are modelled as `List Nat` (one entry per byte value).  Async
generators are modelled as pure functions from their input chunk
sequences to the list of chunks they yield.  The event-loop concurrency
of `MultiClientStreamJob` is modelled as an interleaving small-step
semantics over an explicit job state.  External collaborators of the
controller (`get_media_stream`, `get_stream_details`,
`preload_next_url`, player-config reads) are inputs of the model.
-/

namespace Streams

/-- Total number of bytes in a list of byte chunks. -/
def sumLen (l : List (List Nat)) : Nat :=
  (l.map List.length).sum

/-- Python slice `l[-n:]` (for a non-negative count `n`).  Note the
Python quirk that `l[-0:]` is the whole list. -/
def sliceFromNeg (l : List Nat) (n : Nat) : List Nat :=
  if n = 0 then l else l.drop (l.length - n)

/-- Python slice `l[:-n]` (for a non-negative count `n`); `l[:-0]` is
`l[:0]`, the empty list. -/
def sliceToNeg (l : List Nat) (n : Nat) : List Nat :=
  if n = 0 then [] else l.take (l.length - n)

/-- Lookup in an association list modelling a Python `dict`
(keys are unique; first match). -/
def assocGet {α : Type} (l : List (String × α)) (k : String) : Option α :=
  match l with
  | [] => none
  | p :: rest => if p.1 = k then some p.2 else assocGet rest k

/-- Python `dict` assignment `d[k] = v`: replace in place if the key is
present, else append (Python dicts keep insertion order). -/
def assocSet {α : Type} (l : List (String × α)) (k : String) (v : α) :
    List (String × α) :=
  match l with
  | [] => [(k, v)]
  | p :: rest => if p.1 = k then (k, v) :: rest else p :: assocSet rest k v

/-- Python `dict.pop(k, None)`: the removed value (if any) and the
remaining entries. -/
def assocPop {α : Type} (l : List (String × α)) (k : String) :
    Option α × List (String × α) :=
  match l with
  | [] => (none, [])
  | p :: rest =>
    if p.1 = k then (some p.2, rest)
    else ((assocPop rest k).1, p :: (assocPop rest k).2)

/-- Lookup where the last binding of a key wins, as in Python
`dict(list_of_pairs)`. -/
def assocGetLast (l : List (List Char × List Char)) (k : List Char) :
    Option (List Char) :=
  match l with
  | [] => none
  | p :: rest =>
    match assocGetLast rest k with
    | some v => some v
    | none => if p.1 = k then some p.2 else none

/-- Python `str.split(sep)` for a one-character separator: all segments
are kept, including empty ones; there is always at least one segment. -/
def split_on_char (sep : Char) : List Char → List (List Char)
  | [] => [[]]
  | c :: rest =>
    let r := split_on_char sep rest
    if c = sep then [] :: r
    else
      match r with
      | [] => [[c]]
      | seg :: segs => (c :: seg) :: segs

/-- Python `int(s)` restricted to the non-empty decimal digit strings
occurring in format strings; anything else raises `ValueError`,
modelled by `none`. -/
def py_int (l : List Char) : Option Nat :=
  if l ≠ [] ∧ l.all Char.isDigit then
    some (l.foldl (fun acc c => acc * 10 + (c.toNat - 48)) 0)
  else none

/-! ### Flow stream generator (`StreamsController.get_flow_stream`) -/

/-- Modelled from the spec: `crossfade_pcm_parts` (from
`music_assistant.server.helpers.audio`, which is not among the sources)
performs an equal-power crossfade blending the fade-in part of the next
track with the carried fade-out part of the previous track, so that the
two fade windows collapse into a single block occupying the byte range
of the fade-in part.  We blend the two parts pointwise (the numeric
blend is irrelevant here: the theorems below rely only on the length of
the result, which is the length of the fade-in part). -/
def crossfade_pcm_parts (fade_in_part fade_out_part : List Nat) : List Nat :=
  (fade_in_part.zip (fade_out_part ++ List.replicate fade_in_part.length 0)).map
    (fun p => (p.1 + p.2) / 2)

/-- State of the `async for chunk in get_media_stream(...)` loop inside
`get_flow_stream`: the working `buffer`, the carried
`last_fadeout_part`, the chunks yielded so far for the current track and
the `bytes_written` counter. -/
structure ChunkState where
  buffer : List Nat
  last_fadeout_part : List Nat
  emitted : List (List Nat)
  bytes_written : Nat
deriving DecidableEq

/-- One iteration of the chunk loop body of `get_flow_stream`
(streams.py lines 823-861): boundary crossfade when a carried fadeout
exists and the buffer is full, steady-state yield when the buffer holds
at least `2 * buffer_size` bytes, and otherwise filling the buffer. -/
def flow_chunk_step (crossfade_size buffer_size : Nat) (st : ChunkState)
    (chunk : List Nat) : ChunkState :=
  if st.last_fadeout_part ≠ [] ∧ buffer_size ≤ st.buffer.length then
    let first_part := st.buffer ++ chunk
    let fade_in_part := first_part.take crossfade_size
    let remaining_bytes := first_part.drop crossfade_size
    let crossfade_part := crossfade_pcm_parts fade_in_part st.last_fadeout_part
    { buffer := []
      last_fadeout_part := []
      emitted := st.emitted ++ [crossfade_part] ++
        (if remaining_bytes = [] then [] else [remaining_bytes])
      bytes_written :=
        st.bytes_written + crossfade_part.length + remaining_bytes.length }
  else if buffer_size * 2 ≤ st.buffer.length then
    { st with
      emitted := st.emitted ++ [st.buffer.take buffer_size]
      bytes_written := st.bytes_written + buffer_size
      buffer := st.buffer.drop buffer_size ++ chunk }
  else
    { st with buffer := st.buffer ++ chunk }

/-- Result of processing one (resolvable) queue track inside
`get_flow_stream`: the chunks yielded for it, the final
`bytes_written`, the `seconds_streamed` written back into its
streamdetails, and the `last_fadeout_part` carried into the next
track. -/
structure TrackResult where
  emitted : List (List Nat)
  bytes_written : Nat
  seconds_streamed : ℚ
  last_fadeout_part : List Nat

/-- End-of-track handling of `get_flow_stream` (streams.py lines
863-890), applied to the final chunk-loop state: if no bytes were
written the track is abandoned
(`seconds_streamed = 0`, buffer dropped, carried fadeout kept);
otherwise with crossfade enabled the final `crossfade_size` bytes of the
buffer are held back (`buffer[-crossfade_size:]`) and the rest
(`buffer[:-crossfade_size]`) yielded, else the whole buffer is yielded;
finally `seconds_streamed = bytes_written / pcm_sample_size`.
`seconds_streamed` is modelled as an exact rational (the source computes
it in floating point). -/
def flow_track_end (pcm_sample_size crossfade_size : Nat)
    (use_crossfade : Bool) (st : ChunkState) : TrackResult :=
  if st.bytes_written = 0 then
    ⟨st.emitted, 0, 0, st.last_fadeout_part⟩
  else if st.buffer ≠ [] ∧ use_crossfade then
    let fadeout := sliceFromNeg st.buffer crossfade_size
    let remaining_bytes := sliceToNeg st.buffer crossfade_size
    let bw := st.bytes_written + remaining_bytes.length
    ⟨st.emitted ++ [remaining_bytes], bw, (bw : ℚ) / pcm_sample_size, fadeout⟩
  else if st.buffer ≠ [] then
    let bw := st.bytes_written + st.buffer.length
    ⟨st.emitted ++ [st.buffer], bw, (bw : ℚ) / pcm_sample_size,
      st.last_fadeout_part⟩
  else
    ⟨st.emitted, st.bytes_written,
      (st.bytes_written : ℚ) / pcm_sample_size, st.last_fadeout_part⟩

/-- Processing of one resolvable track: the chunk loop followed by the
end-of-track handling, starting from an empty buffer with the carried
fadeout of the previous track. -/
def flow_track (pcm_sample_size crossfade_size : Nat) (use_crossfade : Bool)
    (last_fadeout_part : List Nat) (chunks : List (List Nat)) : TrackResult :=
  let buffer_size := if use_crossfade then crossfade_size else pcm_sample_size * 2
  flow_track_end pcm_sample_size crossfade_size use_crossfade
    (chunks.foldl (flow_chunk_step crossfade_size buffer_size)
      ⟨[], last_fadeout_part, [], 0⟩)

/-- One queue item as seen by the flow generator: whether
`get_stream_details` succeeds for it (`False` models
`MediaNotFoundError`), the `use_crossfade` flag the queue controller
reports for it (for the first track this is `queue.crossfade_enabled`),
and the PCM chunk sequence `get_media_stream` yields for it.  All three
are external to the sources and hence inputs of the model. -/
structure FlowTrack where
  resolvable : Bool
  use_crossfade : Bool
  chunks : List (List Nat)
deriving DecidableEq

/-- The per-track record `get_flow_stream` writes back into
`queue_track.streamdetails`. -/
structure TrackRecord where
  bytes_written : Nat
  seconds_streamed : ℚ

/-- Main loop of `get_flow_stream` (streams.py lines 764-892), carrying
`last_fadeout_part` across tracks.  A track whose streamdetails cannot
be resolved is skipped (`continue`); the loop ends at `QueueEmpty`,
i.e. at the end of the track list.  Returns the yielded chunks and the
per-track streamdetails records (one per resolvable track). -/
def flow_loop (pcm_sample_size crossfade_size : Nat)
    (last_fadeout_part : List Nat) :
    List FlowTrack → List (List Nat) × List TrackRecord
  | [] => ([], [])
  | t :: rest =>
    if t.resolvable then
      let r := flow_track pcm_sample_size crossfade_size t.use_crossfade
        last_fadeout_part t.chunks
      let tail := flow_loop pcm_sample_size crossfade_size
        r.last_fadeout_part rest
      (r.emitted ++ tail.1, ⟨r.bytes_written, r.seconds_streamed⟩ :: tail.2)
    else
      flow_loop pcm_sample_size crossfade_size last_fadeout_part rest

/-- `pcm_sample_size = int(pcm_format.sample_rate * (pcm_format.bit_depth / 8) * 2)`
(streams.py line 802).  For bit depths divisible by 8 the float
computation of the source is exact, so natural division matches. -/
def pcm_sample_size (sample_rate bit_depth : Nat) : Nat :=
  sample_rate * (bit_depth / 8) * 2

/-- `StreamsController.get_flow_stream`: the crossfade size is
`pcm_sample_size * crossfade_duration` with `crossfade_duration` read
from player config (default 8), and the generator starts with an empty
carried fadeout. -/
def get_flow_stream (sample_rate bit_depth crossfade_duration : Nat)
    (tracks : List FlowTrack) : List (List Nat) × List TrackRecord :=
  flow_loop (pcm_sample_size sample_rate bit_depth)
    (pcm_sample_size sample_rate bit_depth * crossfade_duration) [] tracks

/-- Total number of PCM bytes produced by a track's source stream. -/
def source_bytes (t : FlowTrack) : Nat :=
  sumLen t.chunks

/-! ### Output format negotiation (`parse_pcm_info`, `_get_output_format`) -/

/-- Modelled from the spec: the `ContentType` enum lives in
`music_assistant.common.models.enums`, which is not among the sources.
The spec describes it as a tagged variant over PCM16/PCM24/PCM32 (plus a
generic PCM), FLAC, MP3, AAC, WAV and further codecs; `unknown` stands
for all remaining variants. -/
inductive ContentType where
  | pcm
  | pcm_s16le
  | pcm_s24le
  | pcm_s32le
  | wav
  | flac
  | mp3
  | aac
  | unknown
deriving DecidableEq

/-- Modelled from the spec: `ContentType.is_pcm()` holds exactly for the
PCM variants. -/
def ContentType.is_pcm : ContentType → Bool
  | .pcm | .pcm_s16le | .pcm_s24le | .pcm_s32le => true
  | _ => false

/-- Modelled from the spec: lossless output content types (PCM, WAV and
FLAC); lossy ones (MP3, AAC, ...) are not. -/
def ContentType.is_lossless : ContentType → Bool
  | .pcm | .pcm_s16le | .pcm_s24le | .pcm_s32le | .wav | .flac => true
  | _ => false

/-- Modelled from the spec: `ContentType.from_bit_depth` resolves a
concrete PCM variant from a bit depth (16/24/32 bit). -/
def ContentType.from_bit_depth (bit_depth : Nat) : ContentType :=
  if bit_depth = 24 then .pcm_s24le
  else if bit_depth = 32 then .pcm_s32le
  else .pcm_s16le

/-- Modelled from the spec: `ContentType.try_parse` on a format string
of the shape `codec[;key=value;...]` recognises the codec token in
front of the first semicolon.  Format strings are modelled as character
lists. -/
def ContentType.try_parse (s : List Char) : ContentType :=
  let codec := s.takeWhile (fun c => c ≠ ';')
  if codec = "pcm".data then .pcm
  else if codec = "pcm_s16le".data then .pcm_s16le
  else if codec = "pcm_s24le".data then .pcm_s24le
  else if codec = "pcm_s32le".data then .pcm_s32le
  else if codec = "wav".data then .wav
  else if codec = "flac".data then .flac
  else if codec = "mp3".data then .mp3
  else if codec = "aac".data then .aac
  else .unknown

/-- The player fields `_get_output_format` reads. -/
structure Player where
  max_sample_rate : Nat
  supports_24bit : Bool
deriving DecidableEq

/-- The `AudioFormat` data model (content type, sample rate, bit depth,
channels, raw format string). -/
structure AudioFormat where
  content_type : ContentType
  sample_rate : Nat
  bit_depth : Nat
  channels : Nat
  output_format_str : List Char
deriving DecidableEq

/-- `urllib.parse.parse_qsl` on a `&`-separated query string with
default options: a segment is split at its first `=` into name and
value; segments without a `=` and segments with an empty value are
skipped (percent-decoding is modelled as the identity; the format
strings at issue contain no escapes). -/
def parse_qsl_pairs (s : List Char) : List (List Char × List Char) :=
  (split_on_char '&' s).filterMap (fun seg =>
    let name := seg.takeWhile (fun c => c ≠ '=')
    if name.length = seg.length then none
    else
      let value := seg.drop (name.length + 1)
      if value = [] then none else some (name, value))

/-- The parameter dictionary built by `parse_pcm_info` (streams.py
lines 247-249): only computed when the format string contains a `;`,
after replacing each `;` by `&`. -/
def pcm_params (content_type : List Char) : List (List Char × List Char) :=
  if content_type.contains ';' then
    parse_qsl_pairs (content_type.map (fun c => if c = ';' then '&' else c))
  else []

/-- One `params.get(key, default)` followed by `int(...)` inside
`parse_pcm_info`: the default is used when the key is missing, and a
present value must parse as a number. -/
def pcm_param_nat (content_type : List Char) (k : List Char) (d : Nat) :
    Option Nat :=
  match assocGetLast (pcm_params content_type) k with
  | none => some d
  | some v => py_int v

/-- `parse_pcm_info` (streams.py lines 245-253): rate, bit depth
("bitrate") and channel count from the format string, with defaults
44100 / 16 / 2 for missing keys.  Python `int(...)` raising
`ValueError` on a non-numeric value is modelled by `none`. -/
def parse_pcm_info (content_type : List Char) : Option (Nat × Nat × Nat) :=
  match pcm_param_nat content_type "rate".data 44100,
        pcm_param_nat content_type "bitrate".data 16,
        pcm_param_nat content_type "channels".data 2 with
  | some sample_rate, some sample_size, some channels =>
    some (sample_rate, sample_size, channels)
  | _, _, _ => none

/-- `StreamsController._get_output_format` (streams.py lines 982-1014).
The output-channels player config value (read with `await` in the
source) is passed in as `conf_output_channels`. -/
def _get_output_format (output_format_str : List Char) (queue_player : Player)
    (default_sample_rate default_bit_depth : Nat)
    (conf_output_channels : String) : Option AudioFormat :=
  let content_type := ContentType.try_parse output_format_str
  if content_type.is_pcm ∨ content_type = ContentType.wav then
    match parse_pcm_info output_format_str with
    | none => none
    | some (output_sample_rate, output_bit_depth, output_channels) =>
      let resolved := if content_type = ContentType.pcm
        then ContentType.from_bit_depth output_bit_depth else content_type
      some ⟨resolved, output_sample_rate, output_bit_depth, output_channels,
        output_format_str⟩
  else
    let output_sample_rate := min default_sample_rate queue_player.max_sample_rate
    let player_max_bit_depth := if queue_player.supports_24bit then 32 else 16
    let output_bit_depth := min default_bit_depth player_max_bit_depth
    let output_channels := if conf_output_channels ≠ "stereo" then 1 else 2
    some ⟨content_type, output_sample_rate, output_bit_depth, output_channels,
      output_format_str⟩

/-! ### MultiClientStreamJob: stop, registry, producer -/

/-- The `MultiClientStreamJob` state relevant to `stop()` and the
per-queue registry: the `_finished` flag, whether the producer task
`_audio_task` has completed, whether it has been cancelled, and each
subscribed player's channel contents (an `asyncio.Queue` of capacity 2,
head = oldest chunk). -/
structure MCJob where
  finished_flag : Bool
  audio_task_done : Bool
  audio_task_cancelled : Bool
  subscribed_channels : List (String × List (List Nat))
deriving DecidableEq

/-- The `finished` property: `_finished or _audio_task.done()`. -/
def MCJob.finished (j : MCJob) : Bool :=
  j.finished_flag || j.audio_task_done

/-- `sub_queue.put_nowait(b"")` under `suppress(asyncio.QueueFull)` on a
queue of capacity 2: the empty chunk is appended when there is room and
silently dropped otherwise. -/
def put_nowait_empty (q : List (List Nat)) : List (List Nat) :=
  if q.length < 2 then q ++ [[]] else q

/-- `MultiClientStreamJob.stop` (streams.py lines 123-131): set
`_finished`; if the audio task is already done, return; otherwise cancel
it and attempt a non-blocking put of an empty chunk on every subscribed
player's channel. -/
def MCJob.stop (j : MCJob) : MCJob :=
  if j.audio_task_done then { j with finished_flag := true }
  else
    { j with
      finished_flag := true
      audio_task_cancelled := true
      subscribed_channels :=
        j.subscribed_channels.map (fun p => (p.1, put_nowait_empty p.2)) }

/-- `StreamsController.create_multi_client_stream_job` (streams.py
lines 420-452) as it acts on the `multi_client_jobs` registry: pop any
existing job for the queue, `stop()` it when it is not yet finished,
then register the freshly created job.  Returns the new registry
together with the treated old job (if any), so its final state is
observable. -/
def create_multi_client_stream_job (jobs : List (String × MCJob))
    (queue_id : String) (fresh : MCJob) :
    List (String × MCJob) × Option MCJob :=
  let popped := assocPop jobs queue_id
  let existing_job := popped.1.map (fun j => if j.finished then j else j.stop)
  (assocSet popped.2 queue_id fresh, existing_job)

/-- The 10-second deadline the producer gives the expected players to
connect (streams.py line 217). -/
def connect_timeout_seconds : Nat := 10

/-- Outcome of `await self._all_clients_connected.wait()` under
`asyncio.timeout(10)` while handling chunk 0: either all expected
clients connected within the deadline, or the deadline expired with the
given number of connected subscribers.  Real elapsed time is modelled
by this oracle. -/
inductive ConnectOutcome where
  | connected
  | timed_out (connected_subscribers : Nat)
deriving DecidableEq

/-- `MultiClientStreamJob._stream_job_runner` (streams.py lines
208-242), projected onto the sequence of chunks it broadcasts via
`_put_chunk`: on the first chunk it waits for the connect event; on a
timeout with zero subscribers it breaks out (abort), on a timeout with
at least one subscriber it sets `_all_clients_connected` itself and
carries on; after the source is exhausted (or after the break) it
broadcasts an empty chunk as the EOF marker.  Returns the broadcast
chunk sequence, whether the job was aborted, and whether the runner set
the connect event itself after the timeout. -/
def stream_job_runner (chunks : List (List Nat)) (wait : ConnectOutcome) :
    List (List Nat) × Bool × Bool :=
  match chunks, wait with
  | [], _ => ([[]], false, false)
  | _ :: _, .timed_out 0 => ([[]], true, false)
  | c :: rest, .timed_out (_ + 1) => (c :: rest ++ [[]], false, true)
  | c :: rest, .connected => (c :: rest ++ [[]], false, false)

/-! ### MultiClientStreamJob: subscribe / broadcast interleaving
semantics.  `reg_index`, `received` and `history` are history (ghost)
variables added for specification purposes only; the remaining fields
mirror the job's attributes. -/

/-- Per-subscriber state: the channel contents (the player's
`asyncio.Queue(2)`, head = oldest), plus ghost data: the number of
chunks already broadcast at registration time and the chunks the
consumer has taken off the channel so far. -/
structure SubEntry where
  channel : List (List Nat)
  reg_index : Nat
  received : List (List Nat)
deriving DecidableEq

/-- The shared job state: expected player count, the
`_all_clients_connected` event, the `bytes_streamed` counter, the
`subscribed_players` map, the `client_seconds_skipped` map, plus the
ghost list of all chunks broadcast so far. -/
structure JobState where
  expected_count : Nat
  all_clients_connected : Bool
  bytes_streamed : Nat
  subscribed_players : List (String × SubEntry)
  client_seconds_skipped : List (String × ℚ)
  history : List (List Nat)
deriving DecidableEq

/-- Interleaving events: a player registering in `subscribe`, the
producer broadcasting one chunk via `_put_chunk`, and a consumer taking
one chunk off its channel (`await sub_queue.get()`). -/
inductive JobEvent where
  | subscribe (player_id : String)
  | put_chunk (chunk : List Nat)
  | consume (player_id : String)
deriving DecidableEq

/-- One atomic step of the job.  `subscribe` mirrors streams.py lines
162-182: install a fresh empty channel, record
`client_seconds_skipped[player] = bytes_streamed / pcm_sample_size`
when `_all_clients_connected` is already set, and set the event when
the subscriber count reaches the expected count.  `put_chunk` mirrors
lines 200-206: it is enabled only when every channel has room (each
`put` blocks on a full queue of capacity 2), appends the chunk to every
currently subscribed channel and then advances `bytes_streamed`.
`consume` pops the head of the player's channel. -/
def job_step (pss : Nat) (st : JobState) : JobEvent → Option JobState
  | .subscribe p =>
    let entry : SubEntry := ⟨[], st.history.length, []⟩
    let subs := assocSet st.subscribed_players p entry
    let skipped :=
      if st.all_clients_connected then
        assocSet st.client_seconds_skipped p ((st.bytes_streamed : ℚ) / pss)
      else st.client_seconds_skipped
    some { st with
      subscribed_players := subs
      client_seconds_skipped := skipped
      all_clients_connected :=
        st.all_clients_connected || (subs.length == st.expected_count) }
  | .put_chunk c =>
    if st.subscribed_players.all (fun p => p.2.channel.length < 2) then
      some { st with
        subscribed_players := st.subscribed_players.map
          (fun p => (p.1, { p.2 with channel := p.2.channel ++ [c] }))
        bytes_streamed := st.bytes_streamed + c.length
        history := st.history ++ [c] }
    else none
  | .consume p =>
    match assocGet st.subscribed_players p with
    | none => none
    | some e =>
      match e.channel with
      | [] => none
      | c :: restq =>
        some { st with
          subscribed_players := assocSet st.subscribed_players p
            { e with channel := restq, received := e.received ++ [c] } }

/-- Initial job state: no subscribers, event unset, nothing streamed. -/
def init_job (expected_count : Nat) : JobState :=
  ⟨expected_count, false, 0, [], [], []⟩

/-- Run a sequence of interleaving events from a state; `none` when an
event is not enabled. -/
def run_job (pss : Nat) (st : JobState) : List JobEvent → Option JobState
  | [] => some st
  | e :: es =>
    match job_step pss st e with
    | none => none
    | some st2 => run_job pss st2 es

/-! ### ICY metadata interleaving (`serve_queue_flow_stream`) -/

/-- Bytes of an ASCII string literal. -/
def ascii_bytes (s : String) : List Nat :=
  s.data.map Char.toNat

/-- UTF-8 encoding of a code point, as produced by Python
`chr(n).encode()`. -/
def chr_utf8 (n : Nat) : List Nat :=
  if n < 128 then [n]
  else if n < 2048 then [192 + n / 64, 128 + n % 64]
  else if n < 65536 then
    [224 + n / 4096, 128 + (n / 64) % 64, 128 + n % 64]
  else
    [240 + n / 262144, 128 + (n / 4096) % 64, 128 + (n / 64) % 64,
      128 + n % 64]

/-- The ICY metadata block (streams.py lines 653-655):
`StreamTitle='<title>';` zero-padded with NUL bytes to a multiple of 16
(the `while` padding loop in closed form). -/
def icy_metadata (title : List Nat) : List Nat :=
  let md := ascii_bytes "StreamTitle='" ++ title ++ ascii_bytes "';"
  md ++ List.replicate ((16 - md.length % 16) % 16) 0

/-- The length marker written before the metadata (streams.py lines
656-657): `chr(int(len(metadata) / 16)).encode()`. -/
def icy_length_bytes (metadata : List Nat) : List Nat :=
  chr_utf8 (metadata.length / 16)

/-- The queue item data the title fallback reads; an empty list models
an absent/empty `streamdetails.stream_title` resp. `name`. -/
structure IcyItem where
  stream_title : List Nat
  name : List Nat
deriving DecidableEq

/-- Title resolution (streams.py lines 640-652):
`streamdetails.stream_title`, else the item name, else
"Music Assistant". -/
def icy_title (current_item : Option IcyItem) : List Nat :=
  match current_item with
  | some it =>
    if it.stream_title ≠ [] then it.stream_title
    else if it.name ≠ [] then it.name
    else ascii_bytes "Music Assistant"
  | none => ascii_bytes "Music Assistant"

/-- `ffmpeg_proc.iter_chunked(n)`: exact `n`-byte chunks of the
transcoder output, the final chunk possibly shorter. -/
def iter_chunked (n : Nat) (data : List Nat) : List (List Nat) :=
  if n = 0 then []
  else if h : data = [] then []
  else data.take n :: iter_chunked n (data.drop n)
termination_by data.length
decreasing_by
  simp only [List.length_drop]
  have hd : 0 < data.length := List.length_pos.mpr h
  omega

/-- `icy_meta_interval = 65536 if output_format.content_type.is_lossless() else 8192`
(streams.py line 568). -/
def icy_meta_interval (content_type : ContentType) : Nat :=
  if content_type.is_lossless then 65536 else 8192

/-- The static response headers of the stream server. -/
def DEFAULT_STREAM_HEADERS : List (String × String) :=
  [("transferMode.dlna.org", "Streaming"),
   ("contentFeatures.dlna.org",
    "DLNA.ORG_OP=00;DLNA.ORG_CI=0;DLNA.ORG_FLAGS=0d500000000000000000000000000000"),
   ("Cache-Control", "no-cache"),
   ("Connection", "close"),
   ("icy-name", "Music Assistant"),
   ("icy-pub", "0")]

/-- Response headers of `serve_queue_flow_stream` (streams.py lines
566-574): the defaults, the content type, and `icy-metaint` exactly
when the request carried `Icy-MetaData: 1` (`icy_metadata_header` is
that request header's value, if present). -/
def flow_stream_headers (icy_metadata_header : Option String)
    (output_format_str : String) (content_type : ContentType) :
    List (String × String) :=
  let enable_icy := icy_metadata_header.getD "" = "1"
  DEFAULT_STREAM_HEADERS ++
    [("Content-Type", "audio/" ++ output_format_str)] ++
    (if enable_icy then
      [("icy-metaint", toString (icy_meta_interval content_type))]
    else [])

/-- The response body written by `serve_queue_flow_stream` when ICY is
enabled (streams.py lines 624-658): the transcoder output is read in
`interval`-byte chunks and after each chunk the length marker and
metadata block for the queue item current at that moment
(`current_items i` for the i-th chunk) are appended. -/
def serve_flow_icy_body (interval : Nat) (transcoded : List Nat)
    (current_items : Nat → Option IcyItem) : List Nat :=
  ((iter_chunked interval transcoded).enum.map (fun p =>
    let md := icy_metadata (icy_title (current_items p.1))
    p.2 ++ icy_length_bytes md ++ md)).flatten

/-! ### Lemmas about the flow generator -/

@[simp]
theorem sumLen_nil : sumLen [] = 0 := rfl

@[simp]
theorem sumLen_cons (x : List Nat) (l : List (List Nat)) :
    sumLen (x :: l) = x.length + sumLen l := by
  simp [sumLen]

@[simp]
theorem sumLen_append (a b : List (List Nat)) :
    sumLen (a ++ b) = sumLen a + sumLen b := by
  simp [sumLen]

theorem crossfade_pcm_parts_length (a b : List Nat) :
    (crossfade_pcm_parts a b).length = a.length := by
  simp [crossfade_pcm_parts]

/-- Byte conservation of one chunk-loop iteration: counter plus buffer
grows by exactly the incoming chunk's size. -/
theorem flow_chunk_step_conserve (cs bs : Nat) (st : ChunkState)
    (c : List Nat) :
    (flow_chunk_step cs bs st c).bytes_written +
      (flow_chunk_step cs bs st c).buffer.length
    = st.bytes_written + st.buffer.length + c.length := by
  simp only [flow_chunk_step]
  split
  · simp [crossfade_pcm_parts_length]
    omega
  · split
    · rename_i h2
      simp
      omega
    · simp
      omega

/-- The `bytes_written` counter tracks the bytes yielded so far. -/
theorem flow_chunk_step_bw_emitted (cs bs : Nat) (st : ChunkState)
    (c : List Nat) (h : st.bytes_written = sumLen st.emitted) :
    (flow_chunk_step cs bs st c).bytes_written
      = sumLen (flow_chunk_step cs bs st c).emitted := by
  simp only [flow_chunk_step]
  split
  · split
    · rename_i hrem
      simp [h, hrem]
    · simp [h]
      omega
  · split
    · rename_i h2
      simp [h]
      omega
    · simpa using h

/-- While no fadeout is carried, the crossfade branch never fires, the
fadeout stays empty, and once anything was yielded the buffer never
shrinks below `buffer_size`. -/
theorem flow_chunk_step_fadeout (cs bs : Nat) (st : ChunkState)
    (c : List Nat) (h1 : st.last_fadeout_part = [])
    (h2 : st.bytes_written = 0 ∨ bs ≤ st.buffer.length) :
    (flow_chunk_step cs bs st c).last_fadeout_part = [] ∧
    ((flow_chunk_step cs bs st c).bytes_written = 0 ∨
      bs ≤ (flow_chunk_step cs bs st c).buffer.length) := by
  simp only [flow_chunk_step]
  split
  · rename_i hcond
    exact absurd hcond.1 (by simp [h1])
  · split
    · rename_i h3
      refine ⟨h1, Or.inr ?_⟩
      simp
      omega
    · refine ⟨h1, ?_⟩
      rcases h2 with h2 | h2
      · exact Or.inl h2
      · exact Or.inr (by simp; omega)

theorem flow_foldl_conserve (cs bs : Nat) (chunks : List (List Nat)) :
    ∀ st : ChunkState,
      (chunks.foldl (flow_chunk_step cs bs) st).bytes_written +
        (chunks.foldl (flow_chunk_step cs bs) st).buffer.length
      = st.bytes_written + st.buffer.length + sumLen chunks := by
  induction chunks with
  | nil => intro st; simp
  | cons c rest ih =>
    intro st
    simp only [List.foldl_cons, sumLen_cons]
    rw [ih]
    have := flow_chunk_step_conserve cs bs st c
    omega

theorem flow_foldl_bw_emitted (cs bs : Nat) (chunks : List (List Nat)) :
    ∀ st : ChunkState, st.bytes_written = sumLen st.emitted →
      (chunks.foldl (flow_chunk_step cs bs) st).bytes_written
        = sumLen (chunks.foldl (flow_chunk_step cs bs) st).emitted := by
  induction chunks with
  | nil => intro st h; simpa using h
  | cons c rest ih =>
    intro st h
    simp only [List.foldl_cons]
    exact ih _ (flow_chunk_step_bw_emitted cs bs st c h)

theorem flow_foldl_fadeout (cs bs : Nat) (chunks : List (List Nat)) :
    ∀ st : ChunkState, st.last_fadeout_part = [] →
      (st.bytes_written = 0 ∨ bs ≤ st.buffer.length) →
      (chunks.foldl (flow_chunk_step cs bs) st).last_fadeout_part = [] ∧
      ((chunks.foldl (flow_chunk_step cs bs) st).bytes_written = 0 ∨
        bs ≤ (chunks.foldl (flow_chunk_step cs bs) st).buffer.length) := by
  induction chunks with
  | nil => intro st h1 h2; exact ⟨h1, h2⟩
  | cons c rest ih =>
    intro st h1 h2
    simp only [List.foldl_cons]
    have := flow_chunk_step_fadeout cs bs st c h1 h2
    exact ih _ this.1 this.2

theorem flow_track_end_zero (pss cs : Nat) (uc : Bool) (st : ChunkState)
    (h : st.bytes_written = 0) :
    (flow_track_end pss cs uc st).bytes_written = 0 := by
  simp [flow_track_end, h]

theorem flow_track_end_bw_emitted (pss cs : Nat) (uc : Bool)
    (st : ChunkState) (h : st.bytes_written = sumLen st.emitted) :
    (flow_track_end pss cs uc st).bytes_written
      = sumLen (flow_track_end pss cs uc st).emitted := by
  simp only [flow_track_end]
  split
  · rename_i h0
    simp [← h, h0]
  · split
    · simp [h]
    · split
      · simp [h]
      · simpa using h

theorem flow_track_end_seconds (pss cs : Nat) (uc : Bool)
    (st : ChunkState) :
    ((flow_track_end pss cs uc st).bytes_written ≠ 0 →
      (flow_track_end pss cs uc st).seconds_streamed
        = ((flow_track_end pss cs uc st).bytes_written : ℚ) / pss)
    ∧ ((flow_track_end pss cs uc st).bytes_written = 0 →
      (flow_track_end pss cs uc st).seconds_streamed = 0) := by
  simp only [flow_track_end]
  split
  · exact ⟨fun h => absurd rfl h, fun _ => rfl⟩
  · rename_i h0
    split
    · refine ⟨fun _ => rfl, fun h => ?_⟩
      simp at h
      exact absurd h.1 h0
    · split
      · refine ⟨fun _ => rfl, fun h => ?_⟩
        simp at h
        exact absurd h.1 h0
      · exact ⟨fun _ => rfl, fun h => absurd h h0⟩

/-- End-of-track handling with crossfade and a full fade window: the
held-back fadeout has exactly `crossfade_size` bytes, and exactly those
bytes are withheld from the output. -/
theorem flow_track_end_crossfade (pss cs : Nat) (st : ChunkState)
    (hcs : 0 < cs) (hb : st.bytes_written ≠ 0)
    (hlen : cs ≤ st.buffer.length) :
    (flow_track_end pss cs true st).bytes_written + cs
      = st.bytes_written + st.buffer.length
    ∧ (flow_track_end pss cs true st).last_fadeout_part.length = cs := by
  have hne : st.buffer ≠ [] := by
    intro h
    rw [h] at hlen
    simp at hlen
    omega
  have hcs0 : cs ≠ 0 := Nat.pos_iff_ne_zero.mp hcs
  unfold flow_track_end
  rw [if_neg hb, if_pos (show st.buffer ≠ [] ∧ true = true from ⟨hne, rfl⟩)]
  constructor
  · show st.bytes_written + (sliceToNeg st.buffer cs).length + cs = _
    unfold sliceToNeg
    rw [if_neg hcs0]
    simp
    omega
  · show (sliceFromNeg st.buffer cs).length = cs
    unfold sliceFromNeg
    rw [if_neg hcs0]
    simp
    omega

/-- End-of-track handling without crossfade: the whole remaining buffer
is flushed, nothing is withheld. -/
theorem flow_track_end_no_crossfade (pss cs : Nat) (st : ChunkState)
    (hb : st.bytes_written ≠ 0) :
    (flow_track_end pss cs false st).bytes_written
      = st.bytes_written + st.buffer.length := by
  unfold flow_track_end
  rw [if_neg hb, if_neg (show ¬(st.buffer ≠ [] ∧ false = true) from
    fun h => by simpa using h.2)]
  split
  · rfl
  · rename_i h
    simp at h
    simp [h]

theorem flow_track_bw_emitted (pss cs : Nat) (uc : Bool) (fo : List Nat)
    (chunks : List (List Nat)) :
    (flow_track pss cs uc fo chunks).bytes_written
      = sumLen (flow_track pss cs uc fo chunks).emitted := by
  unfold flow_track
  exact flow_track_end_bw_emitted pss cs uc _
    (flow_foldl_bw_emitted cs (if uc then cs else pss * 2) chunks
      ⟨[], fo, [], 0⟩ rfl)

theorem flow_track_seconds_formula (pss cs : Nat) (uc : Bool)
    (fo : List Nat) (chunks : List (List Nat)) :
    ((flow_track pss cs uc fo chunks).bytes_written ≠ 0 →
      (flow_track pss cs uc fo chunks).seconds_streamed
        = ((flow_track pss cs uc fo chunks).bytes_written : ℚ) / pss)
    ∧ ((flow_track pss cs uc fo chunks).bytes_written = 0 →
      (flow_track pss cs uc fo chunks).seconds_streamed = 0) := by
  unfold flow_track
  exact flow_track_end_seconds pss cs uc _

/-- A track processed with crossfade enabled, starting without a
carried fadeout, that emits at least one byte holds back exactly
`crossfade_size` bytes as the new carried fadeout. -/
theorem flow_track_crossfade_total (pss cs : Nat) (chunks : List (List Nat))
    (hcs : 0 < cs)
    (hb : (flow_track pss cs true [] chunks).bytes_written ≠ 0) :
    (flow_track pss cs true [] chunks).bytes_written + cs = sumLen chunks
    ∧ (flow_track pss cs true [] chunks).last_fadeout_part.length = cs := by
  have hred : flow_track pss cs true [] chunks
      = flow_track_end pss cs true
          (chunks.foldl (flow_chunk_step cs cs) ⟨[], [], [], 0⟩) := by
    simp [flow_track]
  rw [hred] at hb ⊢
  set st := chunks.foldl (flow_chunk_step cs cs) ⟨[], [], [], 0⟩ with hst
  have hcons := flow_foldl_conserve cs cs chunks ⟨[], [], [], 0⟩
  have hfo := flow_foldl_fadeout cs cs chunks ⟨[], [], [], 0⟩ rfl (Or.inl rfl)
  rw [← hst] at hcons hfo
  have hbw : st.bytes_written ≠ 0 := by
    intro h
    exact hb (flow_track_end_zero pss cs true st h)
  have hlen : cs ≤ st.buffer.length := by
    rcases hfo.2 with h | h
    · exact absurd h hbw
    · exact h
  have hmain := flow_track_end_crossfade pss cs st hcs hbw hlen
  have htot : st.bytes_written + st.buffer.length = sumLen chunks := by
    simpa using hcons
  exact ⟨by omega, hmain.2⟩

/-- A track processed with crossfade disabled that emits at least one
byte emits exactly the bytes its source produced (whatever fadeout may
have been carried in: count-wise the crossfade block stands for the
fade-in bytes it consumed). -/
theorem flow_track_no_crossfade_total (pss cs : Nat) (fo : List Nat)
    (chunks : List (List Nat))
    (hb : (flow_track pss cs false fo chunks).bytes_written ≠ 0) :
    (flow_track pss cs false fo chunks).bytes_written = sumLen chunks := by
  have hred : flow_track pss cs false fo chunks
      = flow_track_end pss cs false
          (chunks.foldl (flow_chunk_step cs (pss * 2)) ⟨[], fo, [], 0⟩) := by
    simp [flow_track]
  rw [hred] at hb ⊢
  set st := chunks.foldl (flow_chunk_step cs (pss * 2)) ⟨[], fo, [], 0⟩
    with hst
  have hcons := flow_foldl_conserve cs (pss * 2) chunks ⟨[], fo, [], 0⟩
  rw [← hst] at hcons
  have hbw : st.bytes_written ≠ 0 := by
    intro h
    exact hb (flow_track_end_zero pss cs false st h)
  rw [flow_track_end_no_crossfade pss cs st hbw]
  simpa using hcons

/-- C1 (amended): for a two-track flow where the transition out of
track 1 has `use_crossfade = true` (and no further fadeout is carried
out of track 2, i.e. track 2's flag is false), IF each of the two
tracks emits at least one byte, then the total number of PCM bytes
emitted by the generator equals the total number of bytes produced by
the two source streams minus `crossfade_size`: track 1's final
`crossfade_size` bytes are held back as `carry_fadeout` and collapse
into the single crossfaded window.  The claim's original unconditional
form fails when a track's source is too short to emit any byte (see the
counterexample), in which case its buffered bytes are discarded
entirely. -/
theorem flow_crossfade_transition_total (rate depth dur pss cs : Nat)
    (t1 t2 : FlowTrack)
    (hpss : pss = pcm_sample_size rate depth)
    (hcs : cs = pss * dur)
    (hpss0 : 0 < pss) (hdur0 : 0 < dur)
    (h1 : t1.resolvable = true) (h2 : t2.resolvable = true)
    (hc1 : t1.use_crossfade = true) (hc2 : t2.use_crossfade = false)
    (hb1 : (flow_track pss cs true [] t1.chunks).bytes_written ≠ 0)
    (hb2 : (flow_track pss cs false
        (flow_track pss cs true [] t1.chunks).last_fadeout_part
        t2.chunks).bytes_written ≠ 0) :
    sumLen (get_flow_stream rate depth dur [t1, t2]).1
      = source_bytes t1 + source_bytes t2 - pcm_sample_size rate depth * dur := by
  have hcs0 : 0 < cs := hcs ▸ Nat.mul_pos hpss0 hdur0
  unfold get_flow_stream
  rw [← hpss, ← hcs]
  simp only [flow_loop, h1, h2, hc1, hc2, if_true]
  simp only [sumLen_append, sumLen_nil]
  rw [← flow_track_bw_emitted, ← flow_track_bw_emitted]
  have hA := flow_track_crossfade_total pss cs t1.chunks hcs0 hb1
  have hB := flow_track_no_crossfade_total pss cs
    (flow_track pss cs true [] t1.chunks).last_fadeout_part t2.chunks hb2
  unfold source_bytes
  omega

/-- C1 counterexample to the claim as stated: with
`pcm_sample_size = 2` and `crossfade_duration = 1` (crossfade size 2),
a first track producing 6 source bytes followed by a second track
producing a single source byte.  The second track is too short to emit
anything (`bytes_written = 0`), so its byte is discarded: the generator
emits 4 bytes, while the claim demands `6 + 1 - 2 = 5`. -/
theorem flow_crossfade_transition_total_cex :
    sumLen (get_flow_stream 1 8 1
        [⟨true, true, [[1, 1, 1, 1], [1, 1]]⟩, ⟨true, false, [[7]]⟩]).1 = 4
    ∧ source_bytes ⟨true, true, [[1, 1, 1, 1], [1, 1]]⟩
        + source_bytes ⟨true, false, [[7]]⟩
        - pcm_sample_size 1 8 * 1 = 5 := by
  constructor
  · decide
  · decide

/-- Witness for C1's amended theorem at a concrete transition. -/
theorem flow_crossfade_transition_total_w :
    sumLen (get_flow_stream 1 8 1
        [⟨true, true, [[1, 1, 1, 1], [1, 1]]⟩,
         ⟨true, false, [[7, 7, 7, 7], [8, 8]]⟩]).1
      = source_bytes ⟨true, true, [[1, 1, 1, 1], [1, 1]]⟩
        + source_bytes ⟨true, false, [[7, 7, 7, 7], [8, 8]]⟩
        - pcm_sample_size 1 8 * 1 :=
  flow_crossfade_transition_total 1 8 1 2 2
    ⟨true, true, [[1, 1, 1, 1], [1, 1]]⟩
    ⟨true, false, [[7, 7, 7, 7], [8, 8]]⟩
    rfl rfl (by decide) (by decide) rfl rfl rfl rfl (by decide) (by decide)

/-- C5: the flow generator skips a track whose streamdetails resolution
fails (`MediaNotFoundError`): the generated output and the per-track
records are exactly those of the flow without that track; the error
never terminates the sequence and no EOF chunk is emitted for the
skipped track. -/
theorem flow_skip_unresolvable (rate depth dur pss cs : Nat)
    (fo : List Nat) (t : FlowTrack) (rest : List FlowTrack)
    (h : t.resolvable = false) :
    flow_loop pss cs fo (t :: rest) = flow_loop pss cs fo rest
    ∧ get_flow_stream rate depth dur (t :: rest)
        = get_flow_stream rate depth dur rest := by
  constructor
  · simp [flow_loop, h]
  · unfold get_flow_stream
    simp [flow_loop, h]

/-- Witness for C5 at a concrete queue: a flow starting with an
unresolvable track equals the flow without it. -/
theorem flow_skip_unresolvable_w :
    get_flow_stream 1 8 1
        [⟨false, true, [[9, 9]]⟩, ⟨true, false, [[1, 1, 1, 1], [2, 2]]⟩]
      = get_flow_stream 1 8 1 [⟨true, false, [[1, 1, 1, 1], [2, 2]]⟩] :=
  (flow_skip_unresolvable 1 8 1 2 2 [] ⟨false, true, [[9, 9]]⟩
    [⟨true, false, [[1, 1, 1, 1], [2, 2]]⟩] rfl).2

/-- C6: for every resolvable track processed by the flow generator, the
`bytes_written` counter counts exactly the bytes the generator yielded
for that track; when at least one byte was emitted,
`seconds_streamed = bytes_written / pcm_sample_size` (with
`pcm_sample_size = sample_rate * (bit_depth / 8) * 2`); when zero bytes
were emitted, `seconds_streamed = 0` and the generator continues with
the remaining tracks instead of terminating. -/
theorem flow_track_seconds (rate depth dur pss cs : Nat) (fo : List Nat)
    (t : FlowTrack) (rest : List FlowTrack)
    (hpss : pss = pcm_sample_size rate depth)
    (hcs : cs = pss * dur)
    (hres : t.resolvable = true) :
    (flow_track pss cs t.use_crossfade fo t.chunks).bytes_written
      = sumLen (flow_track pss cs t.use_crossfade fo t.chunks).emitted
    ∧ ((flow_track pss cs t.use_crossfade fo t.chunks).bytes_written ≠ 0 →
        (flow_track pss cs t.use_crossfade fo t.chunks).seconds_streamed
          = ((flow_track pss cs t.use_crossfade fo t.chunks).bytes_written : ℚ)
              / pss)
    ∧ ((flow_track pss cs t.use_crossfade fo t.chunks).bytes_written = 0 →
        (flow_track pss cs t.use_crossfade fo t.chunks).seconds_streamed = 0)
    ∧ flow_loop pss cs fo (t :: rest)
        = ((flow_track pss cs t.use_crossfade fo t.chunks).emitted
            ++ (flow_loop pss cs
                (flow_track pss cs t.use_crossfade fo t.chunks).last_fadeout_part
                rest).1,
           ⟨(flow_track pss cs t.use_crossfade fo t.chunks).bytes_written,
            (flow_track pss cs t.use_crossfade fo t.chunks).seconds_streamed⟩
            :: (flow_loop pss cs
                (flow_track pss cs t.use_crossfade fo t.chunks).last_fadeout_part
                rest).2) := by
  refine ⟨flow_track_bw_emitted pss cs t.use_crossfade fo t.chunks,
    (flow_track_seconds_formula pss cs t.use_crossfade fo t.chunks).1,
    (flow_track_seconds_formula pss cs t.use_crossfade fo t.chunks).2, ?_⟩
  simp [flow_loop, hres]

/-! ### Lemmas and claims about format negotiation -/

theorem pcm_param_nat_default (fmt k : List Char) (d : Nat)
    (h : assocGetLast (pcm_params fmt) k = none) :
    pcm_param_nat fmt k d = some d := by
  unfold pcm_param_nat
  rw [h]

theorem parse_pcm_info_eq (fmt : List Char) (r b c : Nat)
    (h : parse_pcm_info fmt = some (r, b, c)) :
    pcm_param_nat fmt "rate".data 44100 = some r
    ∧ pcm_param_nat fmt "bitrate".data 16 = some b
    ∧ pcm_param_nat fmt "channels".data 2 = some c := by
  unfold parse_pcm_info at h
  rcases h1 : pcm_param_nat fmt "rate".data 44100 with _ | r0 <;> rw [h1] at h
  · simp at h
  · rcases h2 : pcm_param_nat fmt "bitrate".data 16 with _ | b0 <;>
      rw [h2] at h
    · simp at h
    · rcases h3 : pcm_param_nat fmt "channels".data 2 with _ | c0 <;>
        rw [h3] at h
      · simp at h
      · simp only [Option.some.injEq, Prod.mk.injEq] at h
        refine ⟨?_, ?_, ?_⟩
        · exact congrArg some h.1
        · exact congrArg some h.2.1
        · exact congrArg some h.2.2

/-- C2: `_get_output_format` clamps to the player's capabilities only
in the non-PCM/WAV branch: there it returns
`sample_rate = min(default, player.max_sample_rate)`,
`bit_depth = min(default, 32 if player.supports_24bit else 16)` and
2 channels unless the output-channels config is mono/left/right (then
1); whereas for a format string that parses as PCM or WAV the rate,
bitrate and channels values of the string are used as-is, independent
of the player's caps. -/
theorem get_output_format_spec (fmt : List Char) (player : Player)
    (dsr dbd : Nat) (cfg : String) :
    (¬ ((ContentType.try_parse fmt).is_pcm = true
        ∨ ContentType.try_parse fmt = ContentType.wav) →
      (cfg = "stereo" ∨ cfg = "mono" ∨ cfg = "left" ∨ cfg = "right") →
      _get_output_format fmt player dsr dbd cfg
        = some ⟨ContentType.try_parse fmt,
            min dsr player.max_sample_rate,
            min dbd (if player.supports_24bit then 32 else 16),
            (if cfg = "stereo" then 2 else 1), fmt⟩)
    ∧ (∀ r b c, ((ContentType.try_parse fmt).is_pcm = true
          ∨ ContentType.try_parse fmt = ContentType.wav) →
        parse_pcm_info fmt = some (r, b, c) →
        ∃ af, _get_output_format fmt player dsr dbd cfg = some af
          ∧ af.sample_rate = r ∧ af.bit_depth = b ∧ af.channels = c) := by
  constructor
  · intro hnot hdom
    unfold _get_output_format
    rw [if_neg hnot]
    by_cases hc : cfg = "stereo" <;> simp [hc]
  · intro r b c hpcm hparse
    unfold _get_output_format
    rw [if_pos hpcm, hparse]
    exact ⟨_, rfl, rfl, rfl, rfl⟩

/-- Witness for C2: both branches at concrete inputs.  A `flac` request
against a 48 kHz / 24-bit-capable player with flow defaults 96000/24
resolves to 48000/24/1 (mono config); a
`pcm;rate=96000;bitrate=24;channels=2` request against the same player
keeps 96000/24/2 unclamped. -/
theorem get_output_format_spec_w :
    _get_output_format "flac".data ⟨48000, true⟩ 96000 24 "mono"
      = some ⟨ContentType.flac, 48000, 24, 1, "flac".data⟩
    ∧ ∃ af, _get_output_format "pcm;rate=96000;bitrate=24;channels=2".data
          ⟨48000, true⟩ 44100 16 "stereo" = some af
        ∧ af.sample_rate = 96000 ∧ af.bit_depth = 24 ∧ af.channels = 2 := by
  constructor
  · have h := (get_output_format_spec "flac".data ⟨48000, true⟩ 96000 24
      "mono").1 (by decide) (by decide)
    simpa using h
  · exact (get_output_format_spec "pcm;rate=96000;bitrate=24;channels=2".data
      ⟨48000, true⟩ 44100 16 "stereo").2 96000 24 2 (by decide) (by decide)

/-- C10: for a format string that parses as PCM or WAV, every parameter
missing from the string falls back to the fixed defaults 44100 Hz /
16 bit / 2 channels, and the resolved format is entirely independent of
the caller-supplied defaults, the player's capabilities and the
channel config. -/
theorem pcm_wav_fixed_defaults (fmt : List Char) (player : Player)
    (dsr dbd : Nat) (cfg : String)
    (hpcm : (ContentType.try_parse fmt).is_pcm = true
      ∨ ContentType.try_parse fmt = ContentType.wav) :
    (∀ af, _get_output_format fmt player dsr dbd cfg = some af →
      (assocGetLast (pcm_params fmt) "rate".data = none →
        af.sample_rate = 44100)
      ∧ (assocGetLast (pcm_params fmt) "bitrate".data = none →
        af.bit_depth = 16)
      ∧ (assocGetLast (pcm_params fmt) "channels".data = none →
        af.channels = 2))
    ∧ (∀ (player2 : Player) (dsr2 dbd2 : Nat) (cfg2 : String),
        _get_output_format fmt player2 dsr2 dbd2 cfg2
          = _get_output_format fmt player dsr dbd cfg) := by
  constructor
  · intro af haf
    unfold _get_output_format at haf
    rw [if_pos hpcm] at haf
    rcases hp : parse_pcm_info fmt with _ | ⟨r, b, c⟩ <;> rw [hp] at haf
    · simp at haf
    · simp only [Option.some.injEq] at haf
      have hq := parse_pcm_info_eq fmt r b c hp
      refine ⟨fun hnone => ?_, fun hnone => ?_, fun hnone => ?_⟩
      · have := (pcm_param_nat_default fmt "rate".data 44100 hnone).symm.trans
          hq.1
        simp only [Option.some.injEq] at this
        rw [← haf]
        exact this.symm
      · have := (pcm_param_nat_default fmt "bitrate".data 16 hnone).symm.trans
          hq.2.1
        simp only [Option.some.injEq] at this
        rw [← haf]
        exact this.symm
      · have := (pcm_param_nat_default fmt "channels".data 2
          hnone).symm.trans hq.2.2
        simp only [Option.some.injEq] at this
        rw [← haf]
        exact this.symm
  · intro player2 dsr2 dbd2 cfg2
    unfold _get_output_format
    rw [if_pos hpcm, if_pos hpcm]

/-- Witness for C10: a bare `wav` format string resolves to
44100/16/2, identically for two players with different caps, defaults
and channel configs. -/
theorem pcm_wav_fixed_defaults_w :
    _get_output_format "wav".data ⟨48000, false⟩ 96000 24 "stereo"
      = some ⟨ContentType.wav, 44100, 16, 2, "wav".data⟩
    ∧ _get_output_format "wav".data ⟨48000, false⟩ 96000 24 "stereo"
      = _get_output_format "wav".data ⟨96000, true⟩ 44100 16 "mono" := by
  have h := pcm_wav_fixed_defaults "wav".data ⟨48000, false⟩ 96000 24
    "stereo" (by decide)
  exact ⟨by decide, (h.2 ⟨96000, true⟩ 44100 16 "mono").symm⟩

/-! ### Lemmas and claims about the multi-client job registry and stop -/

@[simp]
theorem assocGet_nil {α : Type} (k : String) :
    assocGet ([] : List (String × α)) k = none := rfl

@[simp]
theorem assocGet_cons {α : Type} (p : String × α) (rest : List (String × α))
    (k : String) :
    assocGet (p :: rest) k = if p.1 = k then some p.2 else assocGet rest k :=
  rfl

@[simp]
theorem assocSet_nil {α : Type} (k : String) (v : α) :
    assocSet ([] : List (String × α)) k v = [(k, v)] := rfl

@[simp]
theorem assocSet_cons {α : Type} (p : String × α) (rest : List (String × α))
    (k : String) (v : α) :
    assocSet (p :: rest) k v
      = if p.1 = k then (k, v) :: rest else p :: assocSet rest k v := rfl

@[simp]
theorem assocPop_nil {α : Type} (k : String) :
    assocPop ([] : List (String × α)) k = (none, []) := rfl

@[simp]
theorem assocPop_cons {α : Type} (p : String × α) (rest : List (String × α))
    (k : String) :
    assocPop (p :: rest) k
      = if p.1 = k then (some p.2, rest)
        else ((assocPop rest k).1, p :: (assocPop rest k).2) := by
  conv_lhs => rw [assocPop]

theorem assocGet_assocSet_self {α : Type} (l : List (String × α))
    (k : String) (v : α) : assocGet (assocSet l k v) k = some v := by
  induction l with
  | nil => simp
  | cons p rest ih =>
    by_cases h : p.1 = k <;> simp [h, ih]

theorem assocGet_assocSet_ne {α : Type} (l : List (String × α))
    (k k2 : String) (v : α) (h : k2 ≠ k) :
    assocGet (assocSet l k v) k2 = assocGet l k2 := by
  have hk : ¬(k = k2) := fun hh => h hh.symm
  induction l with
  | nil => simp [hk]
  | cons p rest ih =>
    by_cases hp : p.1 = k
    · simp [hp, hk]
    · by_cases hk2 : p.1 = k2 <;> simp [hp, hk2, h, hk, ih]

theorem assocPop_fst {α : Type} (l : List (String × α)) (k : String) :
    (assocPop l k).1 = assocGet l k := by
  induction l with
  | nil => rfl
  | cons p rest ih =>
    by_cases h : p.1 = k <;> simp [h, ih]

theorem assocGet_assocPop_ne {α : Type} (l : List (String × α))
    (k k2 : String) (h : k2 ≠ k) :
    assocGet (assocPop l k).2 k2 = assocGet l k2 := by
  have hk0 : ¬(k = k2) := fun hh => h hh.symm
  induction l with
  | nil => rfl
  | cons p rest ih =>
    by_cases hp : p.1 = k
    · simp [hp, hk0]
    · by_cases hk2 : p.1 = k2 <;> simp [hp, hk2, h, hk0, ih]

theorem assocPop_keys_sublist {α : Type} (l : List (String × α))
    (k : String) :
    ((assocPop l k).2.map Prod.fst).Sublist (l.map Prod.fst) := by
  induction l with
  | nil => simp
  | cons p rest ih =>
    by_cases h : p.1 = k
    · simp only [assocPop_cons, if_pos h, List.map_cons]
      exact List.Sublist.cons _ (List.Sublist.refl _)
    · simp only [assocPop_cons, if_neg h, List.map_cons]
      exact List.Sublist.cons₂ _ ih

theorem mem_keys_assocSet {α : Type} (l : List (String × α))
    (k k2 : String) (v : α)
    (h : k2 ∈ (assocSet l k v).map Prod.fst) :
    k2 = k ∨ k2 ∈ l.map Prod.fst := by
  induction l with
  | nil => simpa using h
  | cons p rest ih =>
    by_cases hp : p.1 = k
    · simp only [assocSet_cons, if_pos hp, List.map_cons, List.mem_cons] at h
      rcases h with h | h
      · exact Or.inl h
      · exact Or.inr (by simp [h])
    · simp only [assocSet_cons, if_neg hp, List.map_cons, List.mem_cons] at h
      rcases h with h | h
      · exact Or.inr (by simp [h])
      · rcases ih h with h2 | h2
        · exact Or.inl h2
        · exact Or.inr (by simp [h2])

theorem assocSet_keys_nodup {α : Type} (l : List (String × α))
    (k : String) (v : α) (h : (l.map Prod.fst).Nodup) :
    ((assocSet l k v).map Prod.fst).Nodup := by
  induction l with
  | nil => simp
  | cons p rest ih =>
    simp only [List.map_cons, List.nodup_cons] at h
    by_cases hp : p.1 = k
    · simp only [assocSet_cons, if_pos hp, List.map_cons, List.nodup_cons]
      exact ⟨hp ▸ h.1, h.2⟩
    · simp only [assocSet_cons, if_neg hp, List.map_cons, List.nodup_cons]
      refine ⟨fun hmem => ?_, ih h.2⟩
      rcases mem_keys_assocSet rest k p.1 v hmem with h2 | h2
      · exact hp h2
      · exact h.1 h2

theorem create_mcsj_fst (jobs : List (String × MCJob)) (queue_id : String)
    (fresh : MCJob) :
    (create_multi_client_stream_job jobs queue_id fresh).1
      = assocSet (assocPop jobs queue_id).2 queue_id fresh := rfl

theorem create_mcsj_snd (jobs : List (String × MCJob)) (queue_id : String)
    (fresh : MCJob) :
    (create_multi_client_stream_job jobs queue_id fresh).2
      = Option.map (fun j => if j.finished then j else j.stop)
          (assocGet jobs queue_id) := by
  show Option.map _ (assocPop jobs queue_id).1 = _
  rw [assocPop_fst]

theorem mcjob_stop_finished (j : MCJob) :
    (MCJob.stop j).finished = true := by
  unfold MCJob.stop MCJob.finished
  split <;> simp

/-- C4: `create_multi_client_stream_job` keeps at most one job per
queue id: it first removes any existing job for the queue from the
registry, calls `stop()` on it exactly when it is not already finished
(so the treated old job is finished either way), and only then
registers the new job under the queue id; entries of other queues are
untouched and key uniqueness of the registry is preserved. -/
theorem create_multi_client_stream_job_spec (jobs : List (String × MCJob))
    (queue_id : String) (fresh : MCJob)
    (hnd : (jobs.map Prod.fst).Nodup) :
    assocGet (create_multi_client_stream_job jobs queue_id fresh).1 queue_id
      = some fresh
    ∧ (∀ k, k ≠ queue_id →
        assocGet (create_multi_client_stream_job jobs queue_id fresh).1 k
          = assocGet jobs k)
    ∧ ((create_multi_client_stream_job jobs queue_id fresh).1.map
        Prod.fst).Nodup
    ∧ (∀ old, assocGet jobs queue_id = some old →
        (create_multi_client_stream_job jobs queue_id fresh).2
          = some (if old.finished then old else old.stop))
    ∧ (∀ oldj, (create_multi_client_stream_job jobs queue_id fresh).2
          = some oldj → oldj.finished = true)
    ∧ (assocGet jobs queue_id = none →
        (create_multi_client_stream_job jobs queue_id fresh).2 = none) := by
  refine ⟨?_, ?_, ?_, ?_, ?_, ?_⟩
  · rw [create_mcsj_fst]
    exact assocGet_assocSet_self _ _ _
  · intro k hk
    rw [create_mcsj_fst, assocGet_assocSet_ne _ _ _ _ hk,
      assocGet_assocPop_ne _ _ _ hk]
  · rw [create_mcsj_fst]
    exact assocSet_keys_nodup _ _ _
      ((assocPop_keys_sublist jobs queue_id).nodup hnd)
  · intro old hold
    rw [create_mcsj_snd, hold]
    rfl
  · intro oldj holdj
    rw [create_mcsj_snd] at holdj
    rcases hget : assocGet jobs queue_id with _ | old <;> rw [hget] at holdj
    · exact absurd holdj (by simp)
    · have heq : some (if old.finished then old else old.stop) = some oldj :=
        holdj
      rw [← Option.some.inj heq]
      by_cases hfin : old.finished = true
      · simpa [hfin] using hfin
      · simp [hfin, mcjob_stop_finished]
  · intro hnone
    rw [create_mcsj_snd, hnone]
    rfl

/-- Witness for C4: replacing the unfinished job of queue `q` stops it
and registers the new one, leaving queue `r` untouched. -/
theorem create_multi_client_stream_job_spec_w :
    assocGet (create_multi_client_stream_job
        [("q", ⟨false, false, false, []⟩), ("r", ⟨false, false, false, []⟩)]
        "q" ⟨false, false, false, []⟩).1 "q"
      = some ⟨false, false, false, []⟩
    ∧ (∀ oldj, (create_multi_client_stream_job
        [("q", ⟨false, false, false, []⟩), ("r", ⟨false, false, false, []⟩)]
        "q" ⟨false, false, false, []⟩).2 = some oldj →
        oldj.finished = true) := by
  have h := create_multi_client_stream_job_spec
    [("q", ⟨false, false, false, []⟩), ("r", ⟨false, false, false, []⟩)]
    "q" ⟨false, false, false, []⟩ (by decide)
  exact ⟨h.1, h.2.2.2.2.1⟩

/-- C8 counterexample to the claim as stated: on a job whose producer
task has already completed, `stop()` marks the job finished but returns
early: the producer is not cancelled and no empty chunk is put on the
subscribed player's (empty) channel. -/
theorem mcjob_stop_cex :
    (MCJob.stop ⟨false, true, false, [("a", [])]⟩).finished = true
    ∧ (MCJob.stop ⟨false, true, false, [("a", [])]⟩).audio_task_cancelled
        = false
    ∧ (MCJob.stop ⟨false, true, false, [("a", [])]⟩).subscribed_channels
        = [("a", [])] := by
  refine ⟨rfl, rfl, rfl⟩

/-- C8 (amended): `stop()` always marks the job finished; when the
producer task has not yet completed it also cancels the task and
attempts a non-blocking put of an empty chunk on every subscribed
channel, so that every consumer blocked on an empty channel receives
the EOF marker (on a full channel the marker is dropped, and when the
producer task is already done `stop()` returns after setting the
finished flag, pushing nothing). -/
theorem mcjob_stop_spec (j : MCJob) :
    (MCJob.stop j).finished = true
    ∧ (MCJob.stop j).finished_flag = true
    ∧ (j.audio_task_done = false →
        (MCJob.stop j).audio_task_cancelled = true
        ∧ (MCJob.stop j).subscribed_channels
            = j.subscribed_channels.map (fun p => (p.1, put_nowait_empty p.2))
        ∧ ∀ p, (p, ([] : List (List Nat))) ∈ j.subscribed_channels →
            (p, [([] : List Nat)]) ∈ (MCJob.stop j).subscribed_channels)
    ∧ (j.audio_task_done = true →
        (MCJob.stop j).audio_task_cancelled = j.audio_task_cancelled
        ∧ (MCJob.stop j).subscribed_channels = j.subscribed_channels) := by
  refine ⟨mcjob_stop_finished j, ?_, ?_, ?_⟩
  · unfold MCJob.stop
    split <;> rfl
  · intro h
    unfold MCJob.stop
    rw [if_neg (by simp [h])]
    refine ⟨rfl, rfl, ?_⟩
    intro p hp
    exact List.mem_map.mpr ⟨(p, []), hp, by simp [put_nowait_empty]⟩
  · intro h
    unfold MCJob.stop
    rw [if_pos h]
    exact ⟨rfl, rfl⟩

/-- Witness for C8's amended theorem: stopping a running job with one
blocked subscriber delivers the empty EOF chunk to it. -/
theorem mcjob_stop_spec_w :
    (MCJob.stop ⟨false, false, false, [("a", [])]⟩).finished = true
    ∧ ("a", [([] : List Nat)])
        ∈ (MCJob.stop ⟨false, false, false, [("a", [])]⟩).subscribed_channels := by
  have h := mcjob_stop_spec ⟨false, false, false, [("a", [])]⟩
  exact ⟨h.1, (h.2.2.1 rfl).2.2 "a" (by simp)⟩

/-- C7: the producer waits for the connect event only while handling
the first chunk, bounded by the 10-second deadline; when the deadline
expires with zero connected subscribers the job is aborted (nothing but
the EOF marker is broadcast), when it expires with at least one
subscriber the producer sets the connect event itself and streams all
chunks, and on exhaustion of the source stream the last broadcast is
always the empty EOF chunk. -/
theorem stream_job_runner_spec (chunks : List (List Nat))
    (wait : ConnectOutcome) :
    connect_timeout_seconds = 10
    ∧ (chunks ≠ [] → wait = ConnectOutcome.timed_out 0 →
        stream_job_runner chunks wait = ([[]], true, false))
    ∧ (∀ n, chunks ≠ [] → wait = ConnectOutcome.timed_out (n + 1) →
        stream_job_runner chunks wait = (chunks ++ [[]], false, true))
    ∧ (wait = ConnectOutcome.connected →
        stream_job_runner chunks wait = (chunks ++ [[]], false, false))
    ∧ (stream_job_runner chunks wait).1.getLast? = some [] := by
  refine ⟨rfl, ?_, ?_, ?_, ?_⟩
  · intro hne hw
    subst hw
    cases chunks with
    | nil => exact absurd rfl hne
    | cons c rest => rfl
  · intro n hne hw
    subst hw
    cases chunks with
    | nil => exact absurd rfl hne
    | cons c rest => rfl
  · intro hw
    subst hw
    cases chunks with
    | nil => rfl
    | cons c rest => rfl
  · cases chunks with
    | nil => cases wait <;> rfl
    | cons c rest =>
      cases wait with
      | connected =>
        show ((c :: rest) ++ [[]]).getLast? = some []
        exact List.getLast?_concat _
      | timed_out n =>
        cases n with
        | zero => rfl
        | succ m =>
          show ((c :: rest) ++ [[]]).getLast? = some []
          exact List.getLast?_concat _

/-- Witness for C7 at concrete runs: a connected run streams the chunk
then EOF; a timed-out run with zero subscribers aborts with only the
EOF marker. -/
theorem stream_job_runner_spec_w :
    stream_job_runner [[1, 2]] ConnectOutcome.connected
      = ([[1, 2], []], false, false)
    ∧ stream_job_runner [[1, 2]] (ConnectOutcome.timed_out 0)
      = ([[]], true, false) := by
  have h1 := (stream_job_runner_spec [[1, 2]]
    ConnectOutcome.connected).2.2.2.1 rfl
  have h2 := (stream_job_runner_spec [[1, 2]]
    (ConnectOutcome.timed_out 0)).2.1 (by simp) rfl
  exact ⟨by simpa using h1, h2⟩

/-! ### Lemmas and claims about subscribe / broadcast ordering -/

theorem mem_assocSet {α : Type} (l : List (String × α)) (k : String)
    (v : α) (q : String × α) (h : q ∈ assocSet l k v) :
    q = (k, v) ∨ q ∈ l := by
  induction l with
  | nil => exact Or.inl (by simpa using h)
  | cons p rest ih =>
    by_cases hp : p.1 = k
    · simp only [assocSet_cons, if_pos hp, List.mem_cons] at h
      rcases h with h | h
      · exact Or.inl h
      · exact Or.inr (by simp [h])
    · simp only [assocSet_cons, if_neg hp, List.mem_cons] at h
      rcases h with h | h
      · exact Or.inr (by simp [h])
      · rcases ih h with h2 | h2
        · exact Or.inl h2
        · exact Or.inr (by simp [h2])

theorem assocGet_mem {α : Type} (l : List (String × α)) (k : String)
    (v : α) (h : assocGet l k = some v) : (k, v) ∈ l := by
  induction l with
  | nil => simp at h
  | cons p rest ih =>
    by_cases hp : p.1 = k
    · simp only [assocGet_cons, if_pos hp, Option.some.injEq] at h
      have hqv : (k, v) = p := by
        rw [← hp, ← h]
      rw [hqv]
      exact List.mem_cons_self _ _
    · simp only [assocGet_cons, if_neg hp] at h
      exact List.mem_cons_of_mem _ (ih h)

/-- The specification invariant of a job state: `bytes_streamed` counts
the broadcast history, and every subscriber's consumed chunks followed
by its pending channel are exactly the chunks broadcast since its
registration, in production order. -/
def job_inv (st : JobState) : Prop :=
  st.bytes_streamed = sumLen st.history ∧
  ∀ p e, (p, e) ∈ st.subscribed_players →
    e.reg_index ≤ st.history.length ∧
    e.received ++ e.channel = st.history.drop e.reg_index

theorem init_job_inv (n : Nat) : job_inv (init_job n) := by
  constructor
  · rfl
  · intro p e h
    simp [init_job] at h

theorem job_step_inv (pss : Nat) (st st2 : JobState) (e : JobEvent)
    (hstep : job_step pss st e = some st2) (hinv : job_inv st) :
    job_inv st2 := by
  cases e with
  | subscribe p =>
    simp only [job_step] at hstep
    obtain rfl := Option.some.inj hstep
    refine ⟨hinv.1, ?_⟩
    intro q eq hmem
    rcases mem_assocSet _ _ _ _ hmem with heq | hmem2
    · obtain ⟨rfl, rfl⟩ := Prod.mk.injEq .. ▸ heq
      simp only []
      exact ⟨le_refl _, by simp⟩
    · exact hinv.2 _ _ hmem2
  | put_chunk c =>
    simp only [job_step] at hstep
    split at hstep
    · obtain rfl := Option.some.inj hstep
      constructor
      · simp only [sumLen_append, sumLen_cons, sumLen_nil]
        have := hinv.1
        omega
      · intro q eq hmem
        simp only [List.mem_map] at hmem
        obtain ⟨orig, horig, heq⟩ := hmem
        obtain ⟨rfl, rfl⟩ := Prod.mk.injEq .. ▸ heq
        have hold := hinv.2 orig.1 orig.2 (by simpa using horig)
        simp only [List.length_append, List.length_cons, List.length_nil]
        constructor
        · omega
        · show orig.2.received ++ (orig.2.channel ++ [c]) = _
          rw [← List.append_assoc, hold.2,
            List.drop_append_eq_append_drop,
            Nat.sub_eq_zero_of_le hold.1]
          simp
    · exact absurd hstep (by simp)
  | consume p =>
    simp only [job_step] at hstep
    split at hstep
    · exact absurd hstep (by simp)
    · rename_i eentry hget
      split at hstep
      · exact absurd hstep (by simp)
      · rename_i c restq hch
        obtain rfl := Option.some.inj hstep
        refine ⟨hinv.1, ?_⟩
        intro q eq hmem
        rcases mem_assocSet _ _ _ _ hmem with heq | hmem2
        · obtain ⟨rfl, rfl⟩ := Prod.mk.injEq .. ▸ heq
          have hold := hinv.2 _ eentry (assocGet_mem _ _ _ hget)
          refine ⟨hold.1, ?_⟩
          show (eentry.received ++ [c]) ++ restq = _
          rw [List.append_assoc]
          show eentry.received ++ (c :: restq) = _
          rw [← hch]
          exact hold.2
        · exact hinv.2 _ _ hmem2

theorem run_job_inv (pss : Nat) (events : List JobEvent) :
    ∀ st st2, job_inv st → run_job pss st events = some st2 →
      job_inv st2 := by
  induction events with
  | nil =>
    intro st st2 h hrun
    obtain rfl := Option.some.inj hrun
    exact h
  | cons e es ih =>
    intro st st2 h hrun
    simp only [run_job] at hrun
    rcases hstep : job_step pss st e with _ | stm <;> rw [hstep] at hrun
    · exact absurd hrun (by simp)
    · exact ih stm st2 (job_step_inv pss st stm e hstep h) hrun

/-- C3: in every reachable state of a multi-client stream job, every
subscriber's consumed chunks followed by its pending channel are
exactly the chunks broadcast since its registration — it receives no
chunk from before its registration and no duplicated or reordered
chunk, in production order; and a player subscribing while
`all_clients_connected` is already set is registered at the current
history position with
`client_seconds_skipped[player] = bytes_streamed / pcm_sample_size`
computed at that very moment. -/
theorem multi_client_late_join (pss n : Nat) (events : List JobEvent)
    (st : JobState)
    (hrun : run_job pss (init_job n) events = some st) :
    (∀ p e, (p, e) ∈ st.subscribed_players →
      e.received ++ e.channel = st.history.drop e.reg_index)
    ∧ st.bytes_streamed = sumLen st.history
    ∧ (∀ p st2, st.all_clients_connected = true →
        job_step pss st (JobEvent.subscribe p) = some st2 →
        assocGet st2.client_seconds_skipped p
          = some ((sumLen st.history : ℚ) / pss)
        ∧ assocGet st2.subscribed_players p
          = some ⟨[], st.history.length, []⟩) := by
  have hinv := run_job_inv pss events (init_job n) st (init_job_inv n) hrun
  refine ⟨fun p e hm => (hinv.2 p e hm).2, hinv.1, ?_⟩
  intro p st2 hconn hstep
  simp only [job_step, hconn, if_true] at hstep
  obtain rfl := Option.some.inj hstep
  constructor
  · show assocGet (assocSet st.client_seconds_skipped p _) p = _
    rw [assocGet_assocSet_self, hinv.1]
  · exact assocGet_assocSet_self _ _ _

/-- Witness for C3: a concrete interleaving where player B joins after
the event is set (A connected, one chunk of 2 bytes broadcast): B's
consumed/pending chunks match the post-registration history, and a
further late joiner C is recorded with 3 bytes / pcm_sample_size 2
seconds skipped. -/
theorem multi_client_late_join_w :
    ∃ st, run_job 2 (init_job 1)
        [JobEvent.subscribe "A", JobEvent.put_chunk [5, 6],
         JobEvent.subscribe "B", JobEvent.put_chunk [7],
         JobEvent.consume "B"] = some st
      ∧ (∀ p e, (p, e) ∈ st.subscribed_players →
          e.received ++ e.channel = st.history.drop e.reg_index)
      ∧ ∃ st2, job_step 2 st (JobEvent.subscribe "C") = some st2
          ∧ assocGet st2.client_seconds_skipped "C"
              = some ((sumLen st.history : ℚ) / 2) := by
  refine ⟨_, rfl, ?_, ?_⟩
  · exact (multi_client_late_join 2 1
      [JobEvent.subscribe "A", JobEvent.put_chunk [5, 6],
       JobEvent.subscribe "B", JobEvent.put_chunk [7],
       JobEvent.consume "B"] _ rfl).1
  · refine ⟨_, rfl, ?_⟩
    exact ((multi_client_late_join 2 1
      [JobEvent.subscribe "A", JobEvent.put_chunk [5, 6],
       JobEvent.subscribe "B", JobEvent.put_chunk [7],
       JobEvent.consume "B"] _ rfl).2.2 "C" _ (by decide) rfl).1

/-! ### Lemmas and claims about ICY metadata framing -/

theorem map_congr_mem {α β : Type} (l : List α) (f g : α → β)
    (h : ∀ a ∈ l, f a = g a) : l.map f = l.map g := by
  induction l with
  | nil => rfl
  | cons x xs ih =>
    simp only [List.map_cons]
    rw [h x (by simp), ih (fun a ha => h a (by simp [ha]))]

theorem icy_metadata_length (title : List Nat) :
    (icy_metadata title).length
      = (15 + title.length) + ((16 - (15 + title.length) % 16) % 16) := by
  unfold icy_metadata ascii_bytes
  simp only [List.length_append, List.length_replicate, List.length_map]
  rw [show ("StreamTitle='".data).length = 13 from rfl,
    show ("';".data).length = 2 from rfl]
  omega

theorem icy_metadata_length_mod (title : List Nat) :
    (icy_metadata title).length % 16 = 0 := by
  rw [icy_metadata_length]
  omega

theorem icy_metadata_length_le (title : List Nat)
    (h : title.length ≤ 2017) : (icy_metadata title).length ≤ 2047 := by
  rw [icy_metadata_length]
  omega

theorem icy_length_bytes_short (md : List Nat) (h : md.length ≤ 2047) :
    icy_length_bytes md = [md.length / 16] := by
  have hlt : md.length / 16 < 128 := by omega
  simp [icy_length_bytes, chr_utf8, hlt]

/-- C9 counterexample to the claim as stated: a 2033-byte stream title
makes the padded metadata block 2048 bytes long, so the length prefix
`chr(2048 / 16).encode() = chr(128).encode()` is the two-byte UTF-8
sequence `[194, 128]` instead of a single byte of value 128. -/
theorem icy_length_prefix_cex :
    icy_length_bytes (icy_metadata (List.replicate 2033 65)) = [194, 128]
    ∧ (icy_length_bytes (icy_metadata (List.replicate 2033 65))).length ≠ 1
    ∧ (icy_metadata (List.replicate 2033 65)).length / 16 = 128 := by
  have hlen : (icy_metadata (List.replicate 2033 65)).length = 2048 := by
    rw [icy_metadata_length, List.length_replicate]
  have hb : icy_length_bytes (icy_metadata (List.replicate 2033 65))
      = [194, 128] := by
    unfold icy_length_bytes
    rw [hlen]
    norm_num [chr_utf8]
  refine ⟨hb, by rw [hb]; simp, by rw [hlen]⟩

/-- C9 (amended): on the flow endpoint with request header
`Icy-MetaData: 1` the response carries `icy-metaint: M` with M = 65536
for lossless output content types and 8192 otherwise (and no such
header without the request header); after every M-byte block of
transcoder output the server writes the length marker followed by the
metadata block, where the metadata is `StreamTitle='<title>';`
zero-padded with NUL bytes to a multiple of 16 and the title falls back
from `streamdetails.stream_title` to the item name to
"Music Assistant".  The length marker is exactly one byte of value
`len(metadata) / 16` whenever the metadata block is at most 2032 bytes
long (title at most 2017 bytes); for longer titles the source's
`chr(...).encode()` produces a multi-byte sequence instead (see the
counterexample). -/
theorem serve_flow_icy_spec (ct : ContentType) (fmt : String)
    (icy_metadata_header : Option String) (transcoded : List Nat)
    (current_items : Nat → Option IcyItem) :
    (icy_metadata_header.getD "" = "1" →
      assocGet (flow_stream_headers icy_metadata_header fmt ct)
          "icy-metaint"
        = some (toString (icy_meta_interval ct)))
    ∧ (icy_metadata_header.getD "" ≠ "1" →
      assocGet (flow_stream_headers icy_metadata_header fmt ct)
          "icy-metaint" = none)
    ∧ (ct.is_lossless = true → icy_meta_interval ct = 65536)
    ∧ (ct.is_lossless = false → icy_meta_interval ct = 8192)
    ∧ (∀ title, (icy_metadata title).length % 16 = 0
        ∧ icy_metadata title
            = ascii_bytes "StreamTitle='" ++ title ++ ascii_bytes "';"
              ++ List.replicate
                ((16 - (ascii_bytes "StreamTitle='" ++ title
                  ++ ascii_bytes "';").length % 16) % 16) 0)
    ∧ ((∀ i, (icy_title (current_items i)).length ≤ 2017) →
      serve_flow_icy_body (icy_meta_interval ct) transcoded current_items
        = ((iter_chunked (icy_meta_interval ct) transcoded).enum.map
            (fun p =>
              p.2 ++ [(icy_metadata (icy_title (current_items p.1))).length
                / 16]
                ++ icy_metadata (icy_title (current_items p.1)))).flatten)
    ∧ (∀ it : IcyItem,
        (it.stream_title ≠ [] → icy_title (some it) = it.stream_title)
        ∧ (it.stream_title = [] → it.name ≠ [] →
            icy_title (some it) = it.name)
        ∧ (it.stream_title = [] → it.name = [] →
            icy_title (some it) = ascii_bytes "Music Assistant"))
    ∧ icy_title none = ascii_bytes "Music Assistant" := by
  refine ⟨?_, ?_, ?_, ?_, ?_, ?_, ?_, rfl⟩
  · intro h1
    show assocGet (DEFAULT_STREAM_HEADERS
      ++ [("Content-Type", "audio/" ++ fmt)]
      ++ (if icy_metadata_header.getD "" = "1" then
        [("icy-metaint", toString (icy_meta_interval ct))] else []))
      "icy-metaint" = _
    rw [if_pos h1]
    rfl
  · intro h1
    show assocGet (DEFAULT_STREAM_HEADERS
      ++ [("Content-Type", "audio/" ++ fmt)]
      ++ (if icy_metadata_header.getD "" = "1" then
        [("icy-metaint", toString (icy_meta_interval ct))] else []))
      "icy-metaint" = _
    rw [if_neg h1]
    rfl
  · intro h
    simp [icy_meta_interval, h]
  · intro h
    simp [icy_meta_interval, h]
  · intro title
    exact ⟨icy_metadata_length_mod title, rfl⟩
  · intro htitles
    unfold serve_flow_icy_body
    congr 1
    apply map_congr_mem
    intro p hp
    simp only [icy_length_bytes_short (icy_metadata (icy_title
      (current_items p.1))) (icy_metadata_length_le _ (htitles p.1))]
  · intro it
    refine ⟨fun h => ?_, fun h1 h2 => ?_, fun h1 h2 => ?_⟩
    · simp [icy_title, h]
    · simp [icy_title, h1, h2]
    · simp [icy_title, h1, h2]

/-- Witness for C9's amended theorem: a lossless (flac) response with
`Icy-MetaData: 1` carries `icy-metaint: 65536`, and the framed body
equality holds at a concrete transcoder output with no current item
("Music Assistant" fallback title, 15 bytes, within the one-byte length
range). -/
theorem serve_flow_icy_spec_w :
    assocGet (flow_stream_headers (some "1") "flac" ContentType.flac)
        "icy-metaint" = some (toString (icy_meta_interval ContentType.flac))
    ∧ serve_flow_icy_body (icy_meta_interval ContentType.flac) [1, 2, 3]
        (fun _ => none)
      = ((iter_chunked (icy_meta_interval ContentType.flac) [1, 2, 3]).enum.map
          (fun p =>
            p.2 ++ [(icy_metadata (icy_title none)).length / 16]
              ++ icy_metadata (icy_title none))).flatten := by
  have h := serve_flow_icy_spec ContentType.flac "flac" (some "1") [1, 2, 3]
    (fun _ => none)
  exact ⟨h.1 (by decide), h.2.2.2.2.2.1 (fun i => by decide)⟩

/-- Witness for C6 at a concrete track (4 bytes emitted, 2 held back). -/
theorem flow_track_seconds_w :
    (flow_track 2 2 true [] [[1, 1, 1, 1], [1, 1]]).bytes_written
      = sumLen (flow_track 2 2 true [] [[1, 1, 1, 1], [1, 1]]).emitted
    ∧ (flow_track 2 2 true [] [[1, 1, 1, 1], [1, 1]]).seconds_streamed
      = ((flow_track 2 2 true [] [[1, 1, 1, 1], [1, 1]]).bytes_written : ℚ) / 2 := by
  have h := flow_track_seconds 1 8 1 2 2 []
    ⟨true, true, [[1, 1, 1, 1], [1, 1]]⟩ [] rfl rfl rfl
  exact ⟨h.1, h.2.1 (by decide)⟩

end Streams
